import Mathlib

/-!
Verification of the event-stream generator `scripts/generate.py`.

The script is a straight-line program: it checks `sys.argv`, parses the
record count, prints a CSV header, runs a per-step loop that emits a base
transaction plus optional dispute/resolve/chargeback records while
maintaining three state variables (`client_id`, `max_client_id`,
`disputed_tx_ids`), and finally prints the joined record lines.

The embedding below mirrors that structure.  Randomness is made explicit:
each loop iteration consumes one `Draws` record holding the outcome of
every random call the iteration can make.  `random.randint(0, m)` results
are embedded as an arbitrary natural number reduced modulo `m + 1`, so the
set of reachable behaviours is exactly the set of behaviours of the
script.  `random.random()` results are embedded as exact rationals; Python
`round(x, 4)` (banker's rounding) is embedded as round-half-to-even on
rationals.
-/

/-- Outcomes of the random draws a single loop iteration can make
(`random.choice`, the 0.75 client test, `randint(0, max_client_id)`,
`random.random()` for the amount, the three 0.1 tests and the two
`randint(0, len(disputed_tx_ids) - 1)` pool indices). -/
structure Draws where
  kindDeposit : Bool
  newClient : Bool
  reusePick : Nat
  amountR : ℚ
  disputeDraw : Bool
  resolveDraw : Bool
  chargebackDraw : Bool
  resolveIdx : Nat
  chargebackIdx : Nat
deriving Repr, DecidableEq

/-- The three state variables carried across loop iterations
(`client_id`, `max_client_id`, `disputed_tx_ids` of `generate.py`). -/
structure GenState where
  client_id : Nat
  max_client_id : Nat
  disputed_tx_ids : List Nat
deriving Repr, DecidableEq

/-- One output record of the generator: the five row shapes the script can
append to `output` (lines 35, 39, 46, 52 of `generate.py`). -/
inductive Rec where
  | deposit (client tx : Nat) (amount : ℚ)
  | withdrawal (client tx : Nat) (amount : ℚ)
  | dispute (client tx : Nat)
  | resolve (client tx : Nat)
  | chargeback (client tx : Nat)
deriving Repr, DecidableEq

/-- The `tx` field of a record. -/
def recTx : Rec → Nat
  | .deposit _ t _ => t
  | .withdrawal _ t _ => t
  | .dispute _ t => t
  | .resolve _ t => t
  | .chargeback _ t => t

/-- The `client` field of a record. -/
def recClient : Rec → Nat
  | .deposit c _ _ => c
  | .withdrawal c _ _ => c
  | .dispute c _ => c
  | .resolve c _ => c
  | .chargeback c _ => c

/-- Whether a record is a base transaction (deposit or withdrawal). -/
def isBase : Rec → Bool
  | .deposit _ _ _ => true
  | .withdrawal _ _ _ => true
  | _ => false

/-- Whether a record is a dispute. -/
def isDispute : Rec → Bool
  | .dispute _ _ => true
  | _ => false

/-- Whether a record is a resolve. -/
def isResolveRec : Rec → Bool
  | .resolve _ _ => true
  | _ => false

/-- Whether a record is a chargeback. -/
def isChargebackRec : Rec → Bool
  | .chargeback _ _ => true
  | _ => false

/-- Whether a record consumes an open dispute (resolve or chargeback). -/
def isConsume : Rec → Bool
  | .resolve _ _ => true
  | .chargeback _ _ => true
  | _ => false

/-- Round half to even, the tie-breaking rule of Python's built-in
`round`, on exact rationals. -/
def roundHalfEven (x : ℚ) : ℤ :=
  if x - ⌊x⌋ < 1/2 then ⌊x⌋
  else if 1/2 < x - ⌊x⌋ then ⌊x⌋ + 1
  else if ⌊x⌋ % 2 = 0 then ⌊x⌋ else ⌊x⌋ + 1

/-- Python `round(x, 4)` on exact rationals. -/
def pyRound4 (x : ℚ) : ℚ := (roundHalfEven (x * 10000) : ℚ) / 10000

/-- The amount expression of line 35 of `generate.py`:
`round((random.random() + 1) * 100, 4)`, where `r` is the value returned
by `random.random()`. -/
def pyAmount (r : ℚ) : ℚ := pyRound4 ((r + 1) * 100)

/-- Lines 29-33 of `generate.py`: the client-selection branch.  Returns
the new `(client_id, max_client_id)` pair.  With the 0.75 draw the script
sets `max_client_id = max(max_client_id, client_id + 1)` and then
increments `client_id`; otherwise it sets
`client_id = random.randint(0, max_client_id)`. -/
def clientUpd (s : GenState) (d : Draws) : Nat × Nat :=
  if d.newClient then (s.client_id + 1, max s.max_client_id (s.client_id + 1))
  else (d.reusePick % (s.max_client_id + 1), s.max_client_id)

/-- Line 28 and 35 of `generate.py`: the base transaction emitted by each
iteration, a deposit or a withdrawal according to `random.choice`. -/
def baseRec (d : Draws) (c tx : Nat) : Rec :=
  if d.kindDeposit then .deposit c tx (pyAmount d.amountR)
  else .withdrawal c tx (pyAmount d.amountR)

/-- Lines 38-40 of `generate.py`: with the 0.1 draw, emit a dispute row
for the current transaction and append its id to `disputed_tx_ids`. -/
def disputePart (d : Draws) (c tx : Nat) (pool : List Nat) : List Rec × List Nat :=
  if d.disputeDraw then ([Rec.dispute c tx], pool ++ [tx]) else ([], pool)

/-- Lines 43-46 of `generate.py`: if `disputed_tx_ids` is non-empty then,
with the 0.1 draw, pop a random entry and emit a resolve row for it. -/
def resolvePart (d : Draws) (c : Nat) (pool : List Nat) : List Rec × List Nat :=
  if pool ≠ [] ∧ d.resolveDraw = true then
    ([Rec.resolve c (pool.getD (d.resolveIdx % pool.length) 0)],
      pool.eraseIdx (d.resolveIdx % pool.length))
  else ([], pool)

/-- Lines 49-52 of `generate.py`: if `disputed_tx_ids` is still non-empty
then, with the 0.1 draw, pop a random entry and emit a chargeback row. -/
def chargebackPart (d : Draws) (c : Nat) (pool : List Nat) : List Rec × List Nat :=
  if pool ≠ [] ∧ d.chargebackDraw = true then
    ([Rec.chargeback c (pool.getD (d.chargebackIdx % pool.length) 0)],
      pool.eraseIdx (d.chargebackIdx % pool.length))
  else ([], pool)

/-- One iteration of the loop of lines 26-52 of `generate.py` at step
index `tx` (which is also the new transaction's id): client selection,
base transaction, then the dispute, resolve and chargeback blocks in that
order.  Returns the updated state and the records appended to `output`
by this iteration. -/
def step (tx : Nat) (s : GenState) (d : Draws) : GenState × List Rec :=
  let c := (clientUpd s d).1
  let dp := disputePart d c tx s.disputed_tx_ids
  let rp := resolvePart d c dp.2
  let cp := chargebackPart d c rp.2
  (⟨c, (clientUpd s d).2, cp.2⟩, baseRec d c tx :: (dp.1 ++ (rp.1 ++ cp.1)))

/-- Draw record used when the supplied draw list is exhausted; the
theorems quantify over all draw lists, so this only makes the embedding
total. -/
def defaultDraw : Draws := ⟨true, true, 0, 0, false, false, false, 0, 0⟩

/-- The loop `for tx_id in range(num_records)` of `generate.py`, started
at step index `tx` in state `s`, running `k` iterations and consuming one
`Draws` record per iteration. -/
def runSteps : Nat → Nat → GenState → List Draws → GenState × List Rec
  | 0, _, s, _ => (s, [])
  | k + 1, tx, s, ds =>
    let p := step tx s (ds.headD defaultDraw)
    let q := runSteps k (tx + 1) p.1 ds.tail
    (q.1, p.2 ++ q.2)

/-- Lines 20-24 of `generate.py`: the initial state. -/
def initState : GenState := ⟨0, 0, []⟩

/-- The full `output` list produced by a run of `n` loop iterations. -/
def generate (n : Nat) (ds : List Draws) : List Rec :=
  (runSteps n 0 initState ds).2

/-- The generator state after `n` loop iterations. -/
def stateAfter (n : Nat) (ds : List Draws) : GenState :=
  (runSteps n 0 initState ds).1

/-- Python `print(s)`: writes `s` followed by a newline. -/
def pyPrint (s : String) : String := s ++ "\n"

/-- The header printed at line 12 of `generate.py`. -/
def headerLine : String := "type,client,tx,amount"

/-- Decimal rendering of the fractional part (4 scaled digits) with
trailing zeros trimmed, keeping at least one digit, approximating how
Python displays the rounded amounts.  No claim depends on this rendering:
every settled claim concerns runs whose rendered records are
amount-free. -/
def fracDigits (n : Nat) : String :=
  let s := toString n
  let padded := String.mk (List.replicate (4 - s.length) '0') ++ s
  let trimmed := String.mk (padded.toList.reverse.dropWhile (fun ch => ch = '0')).reverse
  if trimmed = "" then "0" else trimmed

/-- Decimal rendering of an amount (a multiple of `1/10000`). -/
def amountStr (q : ℚ) : String :=
  let k := roundHalfEven (q * 10000)
  toString (k / 10000) ++ "." ++ fracDigits (k % 10000).toNat

/-- The row strings built at lines 16-17, 39, 46 and 52 of
`generate.py`. -/
def render : Rec → String
  | .deposit c t a => "deposit," ++ toString c ++ "," ++ toString t ++ "," ++ amountStr a
  | .withdrawal c t a => "withdrawal," ++ toString c ++ "," ++ toString t ++ "," ++ amountStr a
  | .dispute c t => "dispute," ++ toString c ++ "," ++ toString t
  | .resolve c t => "resolve," ++ toString c ++ "," ++ toString t
  | .chargeback c t => "chargeback," ++ toString c ++ "," ++ toString t

/-- The generation phase of `generate.py` after a count has been parsed:
`print('type,client,tx,amount')` (line 12), the loop, then
`print("\n".join(output))` (line 55).  Returns the produced standard
output and the process exit status (0: the script falls off the end). -/
def mainWithCount (n : Int) (ds : List Draws) : String × Nat :=
  (pyPrint headerLine ++ pyPrint (String.intercalate "\n" ((generate n.toNat ds).map render)), 0)

/-- Value of a non-empty all-digit character list, `none` otherwise. -/
def digitsVal : List Char → Option Nat
  | [] => none
  | cs =>
    if cs.all (fun ch => ch.isDigit) then
      some (cs.foldl (fun a ch => a * 10 + (ch.toNat - 48)) 0)
    else none

/-- Python `int(s)` at line 10 of `generate.py`, on canonical integer
literals: an optional sign followed by digits.  (Python additionally
strips whitespace and allows underscores between digits; no claim depends
on those forms.) -/
def pyInt (s : String) : Option Int :=
  match s.toList with
  | '-' :: rest => (digitsVal rest).map (fun v => -(v : Int))
  | '+' :: rest => (digitsVal rest).map (fun v => (v : Int))
  | cs => (digitsVal cs).map (fun v => (v : Int))

/-- The usage string printed at line 7 of `generate.py`. -/
def usageLine : String := "Usage: generate.py <num_records>"

/-- The whole script: lines 6-8 check `len(sys.argv) != 2`, print the
usage string to standard output and exit with status 1; line 10 parses
the argument (an unparseable argument raises an uncaught `ValueError`,
whose traceback goes to standard error: standard output stays empty and
the exit status is non-zero); then the generation phase runs.  Returns
the standard output and the exit status. -/
def pymain (argv : List String) (ds : List Draws) : String × Nat :=
  if argv.length ≠ 2 then (pyPrint usageLine, 1)
  else
    match pyInt (argv.getD 1 "") with
    | none => ("", 1)
    | some n => mainWithCount n ds

/-- Number of dispute records for transaction id `t` in an output list. -/
def countDispute (out : List Rec) (t : Nat) : Nat :=
  out.countP (fun r => isDispute r && recTx r == t)

/-- Number of resolve/chargeback records for transaction id `t` in an
output list. -/
def countConsume (out : List Rec) (t : Nat) : Nat :=
  out.countP (fun r => isConsume r && recTx r == t)

/-- Transaction ids of the base transactions of an output list, in
emission order. -/
def baseTxIds (out : List Rec) : List Nat :=
  out.filterMap (fun r => if isBase r then some (recTx r) else none)

/-- The loop again, with each emitted record annotated by the highest
client id introduced by the "new client" branch of lines 29-31 so far
(`g`, starting at 0: before any introduction the reuse branch can only
produce client 0, the documented step-0 quirk).  The annotation is a
ghost observer: the traversal and the emitted records are those of
`runSteps`. -/
def runStepsG : Nat → Nat → GenState → Nat → List Draws → (GenState × Nat) × List (Rec × Nat)
  | 0, _, s, g, _ => ((s, g), [])
  | k + 1, tx, s, g, ds =>
    let d := ds.headD defaultDraw
    let g' := if d.newClient then max g (s.client_id + 1) else g
    let p := step tx s d
    let q := runStepsG k (tx + 1) p.1 g' ds.tail
    (q.1, p.2.map (fun r => (r, g')) ++ q.2)

/-- The amount of a base transaction record (0 on the amount-free
records). -/
def amountOf : Rec → ℚ
  | .deposit _ _ a => a
  | .withdrawal _ _ a => a
  | _ => 0

/-- Shape of the records emitted by step `i`: exactly one base
transaction with transaction id `i` first, then at most one dispute (of
this very transaction), then at most one resolve, then at most one
chargeback, all attributed to the step's acting client. -/
def StepShaped (i : Nat) (l : List Rec) : Prop :=
  ∃ (c : Nat) (b : Rec) (optD optR optC : List Rec),
    l = b :: (optD ++ (optR ++ optC)) ∧
    ((∃ a, b = Rec.deposit c i a) ∨ (∃ a, b = Rec.withdrawal c i a)) ∧
    (optD = [] ∨ optD = [Rec.dispute c i]) ∧
    (optR = [] ∨ ∃ t, optR = [Rec.resolve c t]) ∧
    (optC = [] ∨ ∃ t, optC = [Rec.chargeback c t])

/-- No transaction id is ever disputed twice in an output list. -/
def DisputeOnce (out : List Rec) : Prop :=
  ∀ t, countDispute out t ≤ 1

/-- In every prefix of an output list, resolves/chargebacks of a
transaction id never outnumber its disputes. -/
def BalancedCounts (out : List Rec) : Prop :=
  ∀ m t, countConsume (out.take m) t ≤ countDispute (out.take m) t

/-- The dispute pool holds no duplicates, and each pooled id has been
disputed exactly once and never resolved or charged back so far. -/
def PoolInv (out : List Rec) (pool : List Nat) : Prop :=
  pool.Nodup ∧ ∀ t ∈ pool, countDispute out t = 1 ∧ countConsume out t = 0

/-- Transaction ids at or above the next step index are neither disputed
in the output nor present in the pool. -/
def FreshInv (out : List Rec) (pool : List Nat) (tx : Nat) : Prop :=
  ∀ t, tx ≤ t → countDispute out t = 0 ∧ t ∉ pool

/-- The loop invariant tying the emitted output to the dispute pool. -/
def GenInv (out : List Rec) (pool : List Nat) (tx : Nat) : Prop :=
  DisputeOnce out ∧ BalancedCounts out ∧ PoolInv out pool ∧ FreshInv out pool tx

/-- Draw record: new client, deposit, no dispute activity. -/
def dNew : Draws := ⟨true, true, 0, 0, false, false, false, 0, 0⟩

/-- Draw record: reuse branch picking client 0, no dispute activity. -/
def dReuse0 : Draws := ⟨true, false, 0, 0, false, false, false, 0, 0⟩

/-- Draw record: new client, deposit, dispute and resolve both drawn. -/
def dRes : Draws := ⟨true, true, 0, 0, true, true, false, 0, 0⟩

/-- The largest value `random.random()` can return, `1 - 2⁻⁵³`. -/
def borderlineR : ℚ := ((2:ℚ)^53 - 1) / 2^53

/-- Draw record whose amount draw is `borderlineR`. -/
def dBig : Draws := ⟨true, true, 0, borderlineR, false, false, false, 0, 0⟩

section Parts

theorem disputePart_shape (d : Draws) (c tx : Nat) (pool : List Nat) :
    disputePart d c tx pool = ([Rec.dispute c tx], pool ++ [tx]) ∨
      disputePart d c tx pool = ([], pool) := by
  unfold disputePart
  split
  · exact Or.inl rfl
  · exact Or.inr rfl

theorem resolvePart_shape (d : Draws) (c : Nat) (pool : List Nat) :
    (∃ i, i < pool.length ∧
        resolvePart d c pool = ([Rec.resolve c (pool.getD i 0)], pool.eraseIdx i)) ∨
      resolvePart d c pool = ([], pool) := by
  unfold resolvePart
  split
  case isTrue h =>
    exact Or.inl ⟨d.resolveIdx % pool.length,
      Nat.mod_lt _ (List.length_pos.mpr h.1), rfl⟩
  case isFalse h => exact Or.inr rfl

theorem chargebackPart_shape (d : Draws) (c : Nat) (pool : List Nat) :
    (∃ i, i < pool.length ∧
        chargebackPart d c pool = ([Rec.chargeback c (pool.getD i 0)], pool.eraseIdx i)) ∨
      chargebackPart d c pool = ([], pool) := by
  unfold chargebackPart
  split
  case isTrue h =>
    exact Or.inl ⟨d.chargebackIdx % pool.length,
      Nat.mod_lt _ (List.length_pos.mpr h.1), rfl⟩
  case isFalse h => exact Or.inr rfl

theorem step_expand (tx : Nat) (s : GenState) (d : Draws) :
    step tx s d =
      (⟨(clientUpd s d).1, (clientUpd s d).2,
          (chargebackPart d (clientUpd s d).1
            (resolvePart d (clientUpd s d).1
              (disputePart d (clientUpd s d).1 tx s.disputed_tx_ids).2).2).2⟩,
        baseRec d (clientUpd s d).1 tx ::
          ((disputePart d (clientUpd s d).1 tx s.disputed_tx_ids).1 ++
            ((resolvePart d (clientUpd s d).1
                (disputePart d (clientUpd s d).1 tx s.disputed_tx_ids).2).1 ++
              (chargebackPart d (clientUpd s d).1
                (resolvePart d (clientUpd s d).1
                  (disputePart d (clientUpd s d).1 tx s.disputed_tx_ids).2).2).1))) := rfl

end Parts

section C2Lemmas

theorem baseTxIds_append (l₁ l₂ : List Rec) :
    baseTxIds (l₁ ++ l₂) = baseTxIds l₁ ++ baseTxIds l₂ := by
  unfold baseTxIds
  exact List.filterMap_append ..

theorem baseTxIds_step (tx : Nat) (s : GenState) (d : Draws) :
    baseTxIds (step tx s d).2 = [tx] := by
  rw [step_expand]
  rcases disputePart_shape d (clientUpd s d).1 tx s.disputed_tx_ids with h1 | h1 <;>
    rw [h1] <;>
    [rcases resolvePart_shape d (clientUpd s d).1 (s.disputed_tx_ids ++ [tx]) with ⟨i, _, h2⟩ | h2;
     rcases resolvePart_shape d (clientUpd s d).1 s.disputed_tx_ids with ⟨i, _, h2⟩ | h2] <;>
    rw [h2] <;>
    rcases chargebackPart_shape d (clientUpd s d).1 _ with ⟨j, _, h3⟩ | h3 <;>
    rw [h3] <;>
    unfold baseRec <;>
    split <;>
    rfl

theorem baseTxIds_runSteps (k : Nat) :
    ∀ (tx : Nat) (s : GenState) (ds : List Draws),
      baseTxIds (runSteps k tx s ds).2 = List.range' tx k := by
  induction k with
  | zero => intro tx s ds; rfl
  | succ k ih =>
    intro tx s ds
    show baseTxIds ((step tx s (ds.headD defaultDraw)).2 ++
      (runSteps k (tx + 1) (step tx s (ds.headD defaultDraw)).1 ds.tail).2) = _
    rw [baseTxIds_append, baseTxIds_step, ih, List.range'_succ]
    rfl

end C2Lemmas

/-- C2: for every requested count `n` and every sequence of random draws,
the transaction ids of the base transactions (deposits/withdrawals) of
the output are exactly `[0, 1, ..., n-1]` in emission order: the id set
is `{0, ..., n-1}`, each id is used exactly once as a base-transaction
id, and the ids are strictly increasing (equal to the step index). -/
theorem base_tx_ids_exact (n : Nat) (ds : List Draws) :
    baseTxIds (generate n ds) = List.range n := by
  rw [List.range_eq_range']
  exact baseTxIds_runSteps n 0 initState ds

section RecordClassLemmas

theorem isBase_baseRec (d : Draws) (c tx : Nat) : isBase (baseRec d c tx) = true := by
  unfold baseRec; split <;> rfl

theorem isDispute_baseRec (d : Draws) (c tx : Nat) : isDispute (baseRec d c tx) = false := by
  unfold baseRec; split <;> rfl

theorem isConsume_baseRec (d : Draws) (c tx : Nat) : isConsume (baseRec d c tx) = false := by
  unfold baseRec; split <;> rfl

theorem isResolveRec_baseRec (d : Draws) (c tx : Nat) : isResolveRec (baseRec d c tx) = false := by
  unfold baseRec; split <;> rfl

theorem isChargebackRec_baseRec (d : Draws) (c tx : Nat) :
    isChargebackRec (baseRec d c tx) = false := by
  unfold baseRec; split <;> rfl

theorem recClient_baseRec (d : Draws) (c tx : Nat) : recClient (baseRec d c tx) = c := by
  unfold baseRec; split <;> rfl

theorem length_eraseIdx_lt (pool : List Nat) (i : Nat) (h : i < pool.length) :
    (pool.eraseIdx i).length = pool.length - 1 := by
  rw [List.length_eraseIdx]
  simp [h]

end RecordClassLemmas

section C10Lemmas

theorem step_length_bounds (tx : Nat) (s : GenState) (d : Draws) :
    1 ≤ (step tx s d).2.length ∧ (step tx s d).2.length ≤ 4 := by
  rw [step_expand]
  rcases disputePart_shape d (clientUpd s d).1 tx s.disputed_tx_ids with h1 | h1 <;>
    rw [h1] <;>
    [rcases resolvePart_shape d (clientUpd s d).1 (s.disputed_tx_ids ++ [tx]) with ⟨i, hi, h2⟩ | h2;
     rcases resolvePart_shape d (clientUpd s d).1 s.disputed_tx_ids with ⟨i, hi, h2⟩ | h2] <;>
    rw [h2] <;>
    rcases chargebackPart_shape d (clientUpd s d).1 _ with ⟨j, hj, h3⟩ | h3 <;>
    rw [h3] <;>
    simp

theorem step_counts (tx : Nat) (s : GenState) (d : Draws) :
    (step tx s d).2.countP isBase = 1 ∧
      (step tx s d).2.countP isDispute ≤ 1 ∧
      (step tx s d).2.countP isResolveRec ≤ 1 ∧
      (step tx s d).2.countP isChargebackRec ≤ 1 := by
  rw [step_expand]
  rcases disputePart_shape d (clientUpd s d).1 tx s.disputed_tx_ids with h1 | h1 <;>
    rw [h1] <;>
    [rcases resolvePart_shape d (clientUpd s d).1 (s.disputed_tx_ids ++ [tx]) with ⟨i, hi, h2⟩ | h2;
     rcases resolvePart_shape d (clientUpd s d).1 s.disputed_tx_ids with ⟨i, hi, h2⟩ | h2] <;>
    rw [h2] <;>
    rcases chargebackPart_shape d (clientUpd s d).1 _ with ⟨j, hj, h3⟩ | h3 <;>
    rw [h3] <;>
    (simp only [List.countP_cons, List.countP_append, List.countP_nil, isBase_baseRec,
       isDispute_baseRec, isResolveRec_baseRec, isChargebackRec_baseRec];
     simp [isBase, isDispute, isResolveRec, isChargebackRec])

theorem step_pool_eq (tx : Nat) (s : GenState) (d : Draws) :
    (step tx s d).1.disputed_tx_ids =
      (chargebackPart d (clientUpd s d).1
        (resolvePart d (clientUpd s d).1
          (disputePart d (clientUpd s d).1 tx s.disputed_tx_ids).2).2).2 := rfl

theorem disputePart_pool_len (d : Draws) (c tx : Nat) (pool : List Nat) :
    pool.length ≤ (disputePart d c tx pool).2.length ∧
      (disputePart d c tx pool).2.length ≤ pool.length + 1 := by
  rcases disputePart_shape d c tx pool with h | h <;> simp only [h] <;> simp

theorem resolvePart_pool_len (d : Draws) (c : Nat) (pool : List Nat) :
    pool.length - 1 ≤ (resolvePart d c pool).2.length ∧
      (resolvePart d c pool).2.length ≤ pool.length := by
  rcases resolvePart_shape d c pool with ⟨i, hi, h⟩ | h
  · simp only [h]
    rw [length_eraseIdx_lt _ _ hi]
    omega
  · simp only [h]
    omega

theorem chargebackPart_pool_len (d : Draws) (c : Nat) (pool : List Nat) :
    pool.length - 1 ≤ (chargebackPart d c pool).2.length ∧
      (chargebackPart d c pool).2.length ≤ pool.length := by
  rcases chargebackPart_shape d c pool with ⟨i, hi, h⟩ | h
  · simp only [h]
    rw [length_eraseIdx_lt _ _ hi]
    omega
  · simp only [h]
    omega

theorem step_pool_delta (tx : Nat) (s : GenState) (d : Draws) :
    (step tx s d).1.disputed_tx_ids.length ≤ s.disputed_tx_ids.length + 1 ∧
      s.disputed_tx_ids.length ≤ (step tx s d).1.disputed_tx_ids.length + 2 := by
  have h1 := disputePart_pool_len d (clientUpd s d).1 tx s.disputed_tx_ids
  have h2 := resolvePart_pool_len d (clientUpd s d).1
    (disputePart d (clientUpd s d).1 tx s.disputed_tx_ids).2
  have h3 := chargebackPart_pool_len d (clientUpd s d).1
    (resolvePart d (clientUpd s d).1
      (disputePart d (clientUpd s d).1 tx s.disputed_tx_ids).2).2
  rw [step_pool_eq]
  omega

theorem runSteps_length_bounds (k : Nat) :
    ∀ (tx : Nat) (s : GenState) (ds : List Draws),
      k ≤ (runSteps k tx s ds).2.length ∧ (runSteps k tx s ds).2.length ≤ 4 * k := by
  induction k with
  | zero => intro tx s ds; exact ⟨Nat.le_refl 0, Nat.le_refl 0⟩
  | succ k ih =>
    intro tx s ds
    have hs := step_length_bounds tx s (ds.headD defaultDraw)
    have hr := ih (tx + 1) (step tx s (ds.headD defaultDraw)).1 ds.tail
    show k + 1 ≤ ((step tx s (ds.headD defaultDraw)).2 ++
        (runSteps k (tx + 1) (step tx s (ds.headD defaultDraw)).1 ds.tail).2).length ∧
      ((step tx s (ds.headD defaultDraw)).2 ++
        (runSteps k (tx + 1) (step tx s (ds.headD defaultDraw)).1 ds.tail).2).length ≤
        4 * (k + 1)
    rw [List.length_append]
    omega

end C10Lemmas

/-- C10: every step emits at least 1 and at most 4 records — exactly one
base transaction, at most one dispute, at most one resolve and at most
one chargeback; a run of `n` steps therefore emits between `n` and `4 * n`
record lines; and the dispute pool's size grows by at most 1 and shrinks
by at most 2 per step. -/
theorem step_and_run_record_bounds (tx : Nat) (s : GenState) (d : Draws)
    (n : Nat) (ds : List Draws) :
    (1 ≤ (step tx s d).2.length ∧ (step tx s d).2.length ≤ 4) ∧
    ((step tx s d).2.countP isBase = 1 ∧
      (step tx s d).2.countP isDispute ≤ 1 ∧
      (step tx s d).2.countP isResolveRec ≤ 1 ∧
      (step tx s d).2.countP isChargebackRec ≤ 1) ∧
    ((step tx s d).1.disputed_tx_ids.length ≤ s.disputed_tx_ids.length + 1 ∧
      s.disputed_tx_ids.length ≤ (step tx s d).1.disputed_tx_ids.length + 2) ∧
    (n ≤ (generate n ds).length ∧ (generate n ds).length ≤ 4 * n) :=
  ⟨step_length_bounds tx s d, step_counts tx s d, step_pool_delta tx s d,
    runSteps_length_bounds n 0 initState ds⟩

section C5Lemmas

theorem step_max_mono (tx : Nat) (s : GenState) (d : Draws) :
    s.max_client_id ≤ (step tx s d).1.max_client_id := by
  show s.max_client_id ≤ (clientUpd s d).2
  unfold clientUpd
  split
  · exact le_max_left _ _
  · exact Nat.le_refl _

theorem step_client_le_max (tx : Nat) (s : GenState) (d : Draws) :
    (step tx s d).1.client_id ≤ (step tx s d).1.max_client_id := by
  show (clientUpd s d).1 ≤ (clientUpd s d).2
  unfold clientUpd
  split
  · exact le_max_right _ _
  · exact Nat.lt_succ_iff.mp (Nat.mod_lt _ (Nat.succ_pos _))

theorem runSteps_client_le_max (k : Nat) :
    ∀ (tx : Nat) (s : GenState) (ds : List Draws),
      s.client_id ≤ s.max_client_id →
      (runSteps k tx s ds).1.client_id ≤ (runSteps k tx s ds).1.max_client_id := by
  induction k with
  | zero => intro tx s ds h; exact h
  | succ k ih =>
    intro tx s ds _
    exact ih (tx + 1) (step tx s (ds.headD defaultDraw)).1 ds.tail
      (step_client_le_max tx s (ds.headD defaultDraw))

theorem runSteps_max_le_succ (k : Nat) :
    ∀ (tx : Nat) (s : GenState) (ds : List Draws),
      (runSteps k tx s ds).1.max_client_id ≤ (runSteps (k + 1) tx s ds).1.max_client_id := by
  induction k with
  | zero =>
    intro tx s ds
    exact step_max_mono tx s (ds.headD defaultDraw)
  | succ k ih =>
    intro tx s ds
    show (runSteps k (tx + 1) (step tx s (ds.headD defaultDraw)).1 ds.tail).1.max_client_id ≤
      (runSteps (k + 1) (tx + 1) (step tx s (ds.headD defaultDraw)).1 ds.tail).1.max_client_id
    exact ih (tx + 1) (step tx s (ds.headD defaultDraw)).1 ds.tail

end C5Lemmas

/-- C5 counterexample: `client_id` (the spec's `clientCursor`) is not
monotonic non-decreasing.  In a two-step run whose first draw takes the
new-client branch and whose second draw takes the reuse branch picking
client 0, `client_id` goes from 1 down to 0. -/
theorem client_cursor_decreases :
    ¬ ((stateAfter 1 [dNew, dReuse0]).client_id ≤
        (stateAfter 2 [dNew, dReuse0]).client_id) := by decide

/-- C5 amended: it is `max_client_id`, not `client_id`, that is monotonic
non-decreasing across the run; `client_id` is merely bounded by
`max_client_id` at every step and can decrease whenever the reuse branch
picks a smaller existing client id. -/
theorem max_client_id_monotone (n : Nat) (ds : List Draws) :
    (stateAfter n ds).max_client_id ≤ (stateAfter (n + 1) ds).max_client_id ∧
      (stateAfter n ds).client_id ≤ (stateAfter n ds).max_client_id :=
  ⟨runSteps_max_le_succ n 0 initState ds,
    runSteps_client_le_max n 0 initState ds (Nat.le_refl 0)⟩

/-- C3 counterexample: invoked with count 0, the script's standard output
is not just the header line — the unconditional final
`print("\n".join(output))` of the empty record list appends one more
newline, so the output is the header line followed by an empty line. -/
theorem n0_output_has_extra_blank_line :
    (pymain ["generate.py", "0"] []).1 = pyPrint headerLine ++ "\n" ∧
      pyPrint headerLine ++ "\n" ≠ pyPrint headerLine ∧
      pyPrint headerLine ++ "\n" ≠ headerLine := by
  refine ⟨?_, ?_, ?_⟩ <;> decide

/-- C3 amended: with count 0 the standard output is exactly the header
line followed by one empty line (the final `print` of the joined, empty,
record list), and the exit status is 0. -/
theorem n0_output_exact (ds : List Draws) :
    pymain ["generate.py", "0"] ds = (pyPrint headerLine ++ pyPrint "", 0) := rfl

/-- C9: a negative integer argument is not rejected: `range(num_records)`
is empty for a negative count, so the run produces exactly the output of
count 0 (header plus the empty final print) and terminates with exit
status 0. -/
theorem negative_count_treated_as_zero (progName s : String) (n : Int) (ds : List Draws)
    (hp : pyInt s = some n) (hneg : n < 0) :
    pymain [progName, s] ds = pymain [progName, "0"] ds ∧
      (pymain [progName, s] ds).2 = 0 := by
  have e1 : pymain [progName, s] ds = mainWithCount n ds := by
    unfold pymain
    rw [if_neg (by simp), show ([progName, s] : List String).getD 1 "" = s from rfl, hp]
  have e2 : pymain [progName, "0"] ds = mainWithCount 0 ds := by
    unfold pymain
    rw [if_neg (by simp),
      show ([progName, "0"] : List String).getD 1 "" = "0" from rfl,
      show pyInt "0" = some 0 from rfl]
  have e3 : mainWithCount n ds = mainWithCount 0 ds := by
    unfold mainWithCount
    rw [Int.toNat_of_nonpos (le_of_lt hneg)]
    rfl
  exact ⟨e1.trans (e3.trans e2.symm), by rw [e1, e3]; rfl⟩

/-- C9 witness at the concrete argument `"-5"`. -/
theorem negative_count_treated_as_zero_witness :
    pymain ["generate.py", "-5"] [] = pymain ["generate.py", "0"] [] ∧
      (pymain ["generate.py", "-5"] []).2 = 0 :=
  negative_count_treated_as_zero "generate.py" "-5" (-5) [] (by decide) (by decide)

theorem comma_mem_append_left (x y : String) (h : ',' ∈ x.toList) :
    ',' ∈ (x ++ y).toList := by
  show ',' ∈ (x ++ y).data
  rw [String.data_append]
  exact List.mem_append_left _ h

theorem comma_mem_render (r : Rec) : ',' ∈ (render r).toList := by
  cases r with
  | deposit c t a =>
    exact comma_mem_append_left _ _ (comma_mem_append_left _ _ (comma_mem_append_left _ _
      (comma_mem_append_left _ _ (comma_mem_append_left _ _ (by decide)))))
  | withdrawal c t a =>
    exact comma_mem_append_left _ _ (comma_mem_append_left _ _ (comma_mem_append_left _ _
      (comma_mem_append_left _ _ (comma_mem_append_left _ _ (by decide)))))
  | dispute c t =>
    exact comma_mem_append_left _ _ (comma_mem_append_left _ _
      (comma_mem_append_left _ _ (by decide)))
  | resolve c t =>
    exact comma_mem_append_left _ _ (comma_mem_append_left _ _
      (comma_mem_append_left _ _ (by decide)))
  | chargeback c t =>
    exact comma_mem_append_left _ _ (comma_mem_append_left _ _
      (comma_mem_append_left _ _ (by decide)))

/-- C8: invoked with an argument count different from 1, the script
prints exactly the usage message (which is not CSV: it contains no comma,
while the header line and every rendered record line contain one) and
exits with the non-zero status 1 — so no CSV output, neither header nor
record line, reaches standard output. -/
theorem wrong_arg_count_usage (argv : List String) (ds : List Draws)
    (h : argv.length ≠ 2) :
    pymain argv ds = (pyPrint usageLine, 1) ∧
      (pymain argv ds).2 ≠ 0 ∧
      ',' ∉ (pymain argv ds).1.toList ∧
      ',' ∈ headerLine.toList ∧
      ∀ r : Rec, ',' ∈ (render r).toList := by
  have e : pymain argv ds = (pyPrint usageLine, 1) := by
    unfold pymain
    rw [if_pos h]
  exact ⟨e, by rw [e]; decide, by rw [e]; decide, by decide, comma_mem_render⟩

/-- C8 witness at the concrete invocation with no arguments. -/
theorem wrong_arg_count_usage_witness :
    pymain [] [] = (pyPrint usageLine, 1) ∧
      (pymain [] []).2 ≠ 0 ∧
      ',' ∉ (pymain [] []).1.toList ∧
      ',' ∈ headerLine.toList ∧
      ∀ r : Rec, ',' ∈ (render r).toList :=
  wrong_arg_count_usage [] [] (by decide)

section C4Lemmas

theorem disputePart_clients (d : Draws) (c tx : Nat) (pool : List Nat) :
    ∀ r ∈ (disputePart d c tx pool).1, recClient r = c := by
  rcases disputePart_shape d c tx pool with h | h
  · simp only [h]
    intro r hr
    rw [List.mem_singleton] at hr
    subst hr
    rfl
  · simp only [h]
    intro r hr
    cases hr

theorem resolvePart_clients (d : Draws) (c : Nat) (pool : List Nat) :
    ∀ r ∈ (resolvePart d c pool).1, recClient r = c := by
  rcases resolvePart_shape d c pool with ⟨i, _, h⟩ | h
  · simp only [h]
    intro r hr
    rw [List.mem_singleton] at hr
    subst hr
    rfl
  · simp only [h]
    intro r hr
    cases hr

theorem chargebackPart_clients (d : Draws) (c : Nat) (pool : List Nat) :
    ∀ r ∈ (chargebackPart d c pool).1, recClient r = c := by
  rcases chargebackPart_shape d c pool with ⟨i, _, h⟩ | h
  · simp only [h]
    intro r hr
    rw [List.mem_singleton] at hr
    subst hr
    rfl
  · simp only [h]
    intro r hr
    cases hr

theorem step_clients (tx : Nat) (s : GenState) (d : Draws) :
    ∀ r ∈ (step tx s d).2, recClient r = (clientUpd s d).1 := by
  intro r hr
  rw [step_expand] at hr
  rcases List.mem_cons.mp hr with rfl | hr'
  · exact recClient_baseRec d _ tx
  rcases List.mem_append.mp hr' with h | h'
  · exact disputePart_clients d _ tx s.disputed_tx_ids r h
  rcases List.mem_append.mp h' with h | h
  · exact resolvePart_clients d _ _ r h
  · exact chargebackPart_clients d _ _ r h

theorem clientUpd_fst_le_snd (s : GenState) (d : Draws) :
    (clientUpd s d).1 ≤ (clientUpd s d).2 :=
  step_client_le_max 0 s d

theorem ghost_eq_max (s : GenState) (d : Draws) (g : Nat) (hg : g = s.max_client_id) :
    (if d.newClient then max g (s.client_id + 1) else g) = (clientUpd s d).2 := by
  subst hg
  unfold clientUpd
  by_cases hnc : d.newClient <;> simp [hnc]

theorem map_fst_pairing (l : List Rec) (G : Nat) :
    (l.map (fun r => (r, G))).map Prod.fst = l := by
  rw [List.map_map]
  exact List.map_id l

theorem runStepsG_spec (k : Nat) :
    ∀ (tx : Nat) (s : GenState) (g : Nat) (ds : List Draws), g = s.max_client_id →
      (runStepsG k tx s g ds).2.map Prod.fst = (runSteps k tx s ds).2 ∧
      ∀ p ∈ (runStepsG k tx s g ds).2, recClient p.1 ≤ p.2 := by
  induction k with
  | zero =>
    intro tx s g ds _
    exact ⟨rfl, fun p hp => absurd hp (List.not_mem_nil p)⟩
  | succ k ih =>
    intro tx s g ds hg
    have hg' : (if (ds.headD defaultDraw).newClient then max g (s.client_id + 1) else g) =
        (step tx s (ds.headD defaultDraw)).1.max_client_id :=
      ghost_eq_max s (ds.headD defaultDraw) g hg
    have hih := ih (tx + 1) (step tx s (ds.headD defaultDraw)).1
      (if (ds.headD defaultDraw).newClient then max g (s.client_id + 1) else g)
      ds.tail hg'
    constructor
    · show ((step tx s (ds.headD defaultDraw)).2.map
          (fun r => (r, if (ds.headD defaultDraw).newClient then max g (s.client_id + 1) else g)) ++
          (runStepsG k (tx + 1) (step tx s (ds.headD defaultDraw)).1
            (if (ds.headD defaultDraw).newClient then max g (s.client_id + 1) else g) ds.tail).2).map
            Prod.fst =
        (step tx s (ds.headD defaultDraw)).2 ++
          (runSteps k (tx + 1) (step tx s (ds.headD defaultDraw)).1 ds.tail).2
      rw [List.map_append, hih.1, map_fst_pairing]
    · intro p hp
      replace hp : p ∈ (step tx s (ds.headD defaultDraw)).2.map
          (fun r => (r, if (ds.headD defaultDraw).newClient then max g (s.client_id + 1) else g)) ++
          (runStepsG k (tx + 1) (step tx s (ds.headD defaultDraw)).1
            (if (ds.headD defaultDraw).newClient then max g (s.client_id + 1) else g) ds.tail).2 := hp
      rcases List.mem_append.mp hp with h | h
      · rcases List.mem_map.mp h with ⟨r, hr, rfl⟩
        show recClient r ≤ _
        rw [step_clients tx s (ds.headD defaultDraw) r hr, hg']
        exact step_client_le_max tx s (ds.headD defaultDraw)
      · exact hih.2 p h

end C4Lemmas

/-- C4: every record's client id is bounded by the highest client id
introduced via the new-client branch up to that record (taken as 0 while
no client has been introduced yet, the documented step-0 quirk).  The
annotated run `runStepsG` pairs each record with exactly that running
maximum, its erasure is the ordinary output, and every record's client is
at most its annotation. -/
theorem client_ids_bounded_by_introduced (n : Nat) (ds : List Draws) :
    (runStepsG n 0 initState 0 ds).2.map Prod.fst = generate n ds ∧
      ∀ p ∈ (runStepsG n 0 initState 0 ds).2, recClient p.1 ≤ p.2 :=
  runStepsG_spec n 0 initState 0 ds rfl

/-- C4 witness: in the one-step run taking the new-client branch, the
emitted deposit's client 1 is bounded by the annotation 1. -/
theorem client_ids_bounded_by_introduced_witness :
    recClient (Rec.deposit 1 0 (pyAmount 0)) ≤ 1 :=
  (client_ids_bounded_by_introduced 1 [dNew]).2 (Rec.deposit 1 0 (pyAmount 0), 1)
    (List.mem_singleton.mpr rfl)

section C7Lemmas

theorem baseRec_or (d : Draws) (c tx : Nat) :
    (∃ a, baseRec d c tx = Rec.deposit c tx a) ∨
      (∃ a, baseRec d c tx = Rec.withdrawal c tx a) := by
  unfold baseRec
  split
  · exact Or.inl ⟨_, rfl⟩
  · exact Or.inr ⟨_, rfl⟩

theorem step_shaped (tx : Nat) (s : GenState) (d : Draws) :
    StepShaped tx (step tx s d).2 := by
  refine ⟨(clientUpd s d).1, baseRec d (clientUpd s d).1 tx,
    (disputePart d (clientUpd s d).1 tx s.disputed_tx_ids).1,
    (resolvePart d (clientUpd s d).1
      (disputePart d (clientUpd s d).1 tx s.disputed_tx_ids).2).1,
    (chargebackPart d (clientUpd s d).1
      (resolvePart d (clientUpd s d).1
        (disputePart d (clientUpd s d).1 tx s.disputed_tx_ids).2).2).1,
    rfl, baseRec_or d _ tx, ?_, ?_, ?_⟩
  · rcases disputePart_shape d (clientUpd s d).1 tx s.disputed_tx_ids with h | h
    · exact Or.inr (by rw [h])
    · exact Or.inl (by rw [h])
  · rcases resolvePart_shape d (clientUpd s d).1
        (disputePart d (clientUpd s d).1 tx s.disputed_tx_ids).2 with ⟨i, hi, h⟩ | h
    · exact Or.inr ⟨_, by rw [h]⟩
    · exact Or.inl (by rw [h])
  · rcases chargebackPart_shape d (clientUpd s d).1
        (resolvePart d (clientUpd s d).1
          (disputePart d (clientUpd s d).1 tx s.disputed_tx_ids).2).2 with ⟨i, hi, h⟩ | h
    · exact Or.inr ⟨_, by rw [h]⟩
    · exact Or.inl (by rw [h])

theorem runSteps_step_order (k : Nat) :
    ∀ (tx : Nat) (s : GenState) (ds : List Draws),
      ∃ chunks : List (List Rec),
        (runSteps k tx s ds).2 = chunks.flatten ∧
        List.Forall₂ StepShaped (List.range' tx k) chunks := by
  induction k with
  | zero => intro tx s ds; exact ⟨[], rfl, List.Forall₂.nil⟩
  | succ k ih =>
    intro tx s ds
    obtain ⟨chunks, hj, hf⟩ := ih (tx + 1) (step tx s (ds.headD defaultDraw)).1 ds.tail
    refine ⟨(step tx s (ds.headD defaultDraw)).2 :: chunks, ?_, ?_⟩
    · show (step tx s (ds.headD defaultDraw)).2 ++
        (runSteps k (tx + 1) (step tx s (ds.headD defaultDraw)).1 ds.tail).2 =
        ((step tx s (ds.headD defaultDraw)).2 :: chunks).flatten
      rw [hj, List.flatten_cons]
    · rw [List.range'_succ]
      exact List.Forall₂.cons (step_shaped tx s _) hf

end C7Lemmas

/-- C7: the output is exactly the concatenation, in step order, of the
per-step record lists, and the records of step `i` are: one base
transaction with transaction id `i` first, then an optional dispute of
transaction `i`, then an optional resolve, then an optional chargeback —
no other interleaving. -/
theorem output_in_step_order (n : Nat) (ds : List Draws) :
    ∃ chunks : List (List Rec),
      generate n ds = chunks.flatten ∧
      List.Forall₂ StepShaped (List.range n) chunks := by
  rw [List.range_eq_range']
  exact runSteps_step_order n 0 initState ds

/-- C7 witness: the decomposition instantiated at a concrete one-step
run. -/
theorem output_in_step_order_witness :
    ∃ chunks : List (List Rec),
      generate 1 [dRes] = chunks.flatten ∧
      List.Forall₂ StepShaped (List.range 1) chunks :=
  output_in_step_order 1 [dRes]

section C6Lemmas

theorem roundHalfEven_mem (x : ℚ) :
    ⌊x⌋ ≤ roundHalfEven x ∧ roundHalfEven x ≤ ⌊x⌋ + 1 := by
  unfold roundHalfEven
  split_ifs <;> omega

theorem roundHalfEven_le_ceil (x : ℚ) : roundHalfEven x ≤ ⌈x⌉ := by
  have h1 : ⌊x⌋ ≤ ⌈x⌉ := Int.floor_le_ceil x
  unfold roundHalfEven
  split_ifs with ha hb hc
  · exact h1
  · have h2 : ⌊x⌋ < ⌈x⌉ := Int.lt_ceil.mpr (by linarith [Int.floor_le x])
    omega
  · exact h1
  · have h2 : ⌊x⌋ < ⌈x⌉ := Int.lt_ceil.mpr (by linarith [Int.floor_le x])
    omega

theorem pyAmount_bounds (r : ℚ) (h0 : 0 ≤ r) (h1 : r < 1) :
    100 ≤ pyAmount r ∧ pyAmount r ≤ 200 ∧ ∃ k : ℤ, pyAmount r = (k : ℚ) / 10000 := by
  have hy1 : (1000000 : ℚ) ≤ (r + 1) * 100 * 10000 := by nlinarith
  have hy2 : (r + 1) * 100 * 10000 ≤ 2000000 := by nlinarith
  have hf1 : (1000000 : ℤ) ≤ ⌊(r + 1) * 100 * 10000⌋ := by
    rw [Int.le_floor]
    exact_mod_cast hy1
  have hc2 : ⌈(r + 1) * 100 * 10000⌉ ≤ (2000000 : ℤ) := by
    rw [Int.ceil_le]
    exact_mod_cast hy2
  have hmem := roundHalfEven_mem ((r + 1) * 100 * 10000)
  have hle := roundHalfEven_le_ceil ((r + 1) * 100 * 10000)
  have hk1 : (1000000 : ℤ) ≤ roundHalfEven ((r + 1) * 100 * 10000) := by omega
  have hk2 : roundHalfEven ((r + 1) * 100 * 10000) ≤ 2000000 := by omega
  have he : pyAmount r = (roundHalfEven ((r + 1) * 100 * 10000) : ℚ) / 10000 := rfl
  refine ⟨?_, ?_, roundHalfEven ((r + 1) * 100 * 10000), he⟩
  · rw [he, le_div_iff₀ (by norm_num : (0 : ℚ) < 10000)]
    have : (1000000 : ℚ) ≤ (roundHalfEven ((r + 1) * 100 * 10000) : ℚ) := by
      exact_mod_cast hk1
    linarith
  · rw [he, div_le_iff₀ (by norm_num : (0 : ℚ) < 10000)]
    have : (roundHalfEven ((r + 1) * 100 * 10000) : ℚ) ≤ 2000000 := by
      exact_mod_cast hk2
    linarith

theorem disputePart_not_base (d : Draws) (c tx : Nat) (pool : List Nat) :
    ∀ r ∈ (disputePart d c tx pool).1, isBase r = false := by
  rcases disputePart_shape d c tx pool with h | h <;> simp only [h]
  · intro r hr
    rw [List.mem_singleton] at hr
    subst hr
    rfl
  · intro r hr
    cases hr

theorem resolvePart_not_base (d : Draws) (c : Nat) (pool : List Nat) :
    ∀ r ∈ (resolvePart d c pool).1, isBase r = false := by
  rcases resolvePart_shape d c pool with ⟨i, _, h⟩ | h <;> simp only [h]
  · intro r hr
    rw [List.mem_singleton] at hr
    subst hr
    rfl
  · intro r hr
    cases hr

theorem chargebackPart_not_base (d : Draws) (c : Nat) (pool : List Nat) :
    ∀ r ∈ (chargebackPart d c pool).1, isBase r = false := by
  rcases chargebackPart_shape d c pool with ⟨i, _, h⟩ | h <;> simp only [h]
  · intro r hr
    rw [List.mem_singleton] at hr
    subst hr
    rfl
  · intro r hr
    cases hr

theorem step_amounts (tx : Nat) (s : GenState) (d : Draws) :
    ∀ r ∈ (step tx s d).2, isBase r = true → amountOf r = pyAmount d.amountR := by
  intro r hr hb
  rw [step_expand] at hr
  rcases List.mem_cons.mp hr with rfl | hr'
  · show amountOf (baseRec d _ tx) = pyAmount d.amountR
    unfold baseRec
    split <;> rfl
  rcases List.mem_append.mp hr' with h | h'
  · rw [disputePart_not_base d _ tx s.disputed_tx_ids r h] at hb
    cases hb
  rcases List.mem_append.mp h' with h | h
  · rw [resolvePart_not_base d _ _ r h] at hb
    cases hb
  · rw [chargebackPart_not_base d _ _ r h] at hb
    cases hb

theorem runSteps_amounts (k : Nat) :
    ∀ (tx : Nat) (s : GenState) (ds : List Draws),
      (∀ d ∈ ds, 0 ≤ d.amountR ∧ d.amountR < 1) →
      ∀ r ∈ (runSteps k tx s ds).2, isBase r = true →
        100 ≤ amountOf r ∧ amountOf r ≤ 200 ∧ ∃ kk : ℤ, amountOf r = (kk : ℚ) / 10000 := by
  induction k with
  | zero => intro tx s ds _ r hr; cases hr
  | succ k ih =>
    intro tx s ds hds r hr hb
    replace hr : r ∈ (step tx s (ds.headD defaultDraw)).2 ++
        (runSteps k (tx + 1) (step tx s (ds.headD defaultDraw)).1 ds.tail).2 := hr
    rcases List.mem_append.mp hr with h | h
    · have hd : 0 ≤ (ds.headD defaultDraw).amountR ∧ (ds.headD defaultDraw).amountR < 1 := by
        cases ds with
        | nil => exact ⟨le_refl 0, by norm_num [defaultDraw]⟩
        | cons a l => exact hds a (List.mem_cons_self a l)
      rw [step_amounts tx s _ r h hb]
      exact pyAmount_bounds _ hd.1 hd.2
    · exact ih (tx + 1) (step tx s (ds.headD defaultDraw)).1 ds.tail
        (fun d hd => hds d ((List.tail_sublist ds).subset hd)) r h hb

end C6Lemmas

/-- C6 counterexample: the amount bound `[100.0000, 200.0000)` fails at
the upper end.  For the draw `1 - 2⁻⁵³` (the largest value the random
source can return, and in the permitted range `[0, 1)`), the scaled value
`1999999.99...` rounds up to `2000000`, so the emitted amount is exactly
`200`, outside the half-open interval. -/
theorem amount_can_reach_200 :
    (0 ≤ borderlineR ∧ borderlineR < 1) ∧
      generate 1 [dBig] = [Rec.deposit 1 0 (pyAmount borderlineR)] ∧
      pyAmount borderlineR = 200 := by
  have hy : (borderlineR + 1) * 100 * 10000 = 2000000 - 15625 / 2 ^ 47 := by
    unfold borderlineR
    norm_num
  have hfloor : ⌊(borderlineR + 1) * 100 * 10000⌋ = 1999999 := by
    rw [hy, Int.floor_eq_iff]
    norm_num
  refine ⟨⟨?_, ?_⟩, rfl, ?_⟩
  · unfold borderlineR
    positivity
  · unfold borderlineR
    rw [div_lt_one (by positivity)]
    norm_num
  · have h200 : roundHalfEven ((borderlineR + 1) * 100 * 10000) = 2000000 := by
      unfold roundHalfEven
      rw [hfloor, hy, if_neg (by norm_num), if_pos (by norm_num)]
      norm_num
    show (roundHalfEven ((borderlineR + 1) * 100 * 10000) : ℚ) / 10000 = 200
    rw [h200]
    norm_num

/-- C6 amended: when every amount draw lies in `[0, 1)` (the range of
`random.random()`), every emitted base-transaction amount lies in the
closed interval `[100.0000, 200.0000]` — the upper endpoint `200.0000` is
attainable by rounding — and is an integer multiple of `0.0001`. -/
theorem amounts_in_closed_range (n : Nat) (ds : List Draws)
    (hds : ∀ d ∈ ds, 0 ≤ d.amountR ∧ d.amountR < 1) :
    ∀ r ∈ generate n ds, isBase r = true →
      100 ≤ amountOf r ∧ amountOf r ≤ 200 ∧ ∃ k : ℤ, amountOf r = (k : ℚ) / 10000 :=
  runSteps_amounts n 0 initState ds hds

/-- C6 witness: the deposit emitted by a one-step run with amount draw 0
has an in-range amount. -/
theorem amounts_in_closed_range_witness :
    100 ≤ amountOf (Rec.deposit 1 0 (pyAmount 0)) ∧
      amountOf (Rec.deposit 1 0 (pyAmount 0)) ≤ 200 ∧
      ∃ k : ℤ, amountOf (Rec.deposit 1 0 (pyAmount 0)) = (k : ℚ) / 10000 :=
  amounts_in_closed_range 1 [dNew]
    (by
      intro d hd
      rw [List.mem_singleton] at hd
      subst hd
      exact ⟨by norm_num [dNew], by norm_num [dNew]⟩)
    (Rec.deposit 1 0 (pyAmount 0)) (List.mem_singleton.mpr rfl) rfl

section C1CountLemmas

theorem consume_not_dispute (r : Rec) (h : isConsume r = true) : isDispute r = false := by
  cases r <;> first | rfl | cases h

theorem dispute_not_consume (r : Rec) (h : isDispute r = true) : isConsume r = false := by
  cases r <;> first | rfl | cases h

theorem countDispute_append (l₁ l₂ : List Rec) (t : Nat) :
    countDispute (l₁ ++ l₂) t = countDispute l₁ t + countDispute l₂ t := by
  unfold countDispute
  rw [List.countP_append]

theorem countConsume_append (l₁ l₂ : List Rec) (t : Nat) :
    countConsume (l₁ ++ l₂) t = countConsume l₁ t + countConsume l₂ t := by
  unfold countConsume
  rw [List.countP_append]

theorem countDispute_snoc_dispute (out : List Rec) (c x t : Nat) :
    countDispute (out ++ [Rec.dispute c x]) t =
      countDispute out t + if x = t then 1 else 0 := by
  unfold countDispute
  rw [List.countP_append]
  by_cases hx : x = t <;> simp [List.countP_cons, isDispute, recTx, hx]

theorem countDispute_snoc_nondispute (out : List Rec) (r : Rec) (t : Nat)
    (h : isDispute r = false) :
    countDispute (out ++ [r]) t = countDispute out t := by
  unfold countDispute
  rw [List.countP_append]
  simp [List.countP_cons, h]

theorem countConsume_snoc_consume (out : List Rec) (r : Rec) (t : Nat)
    (h : isConsume r = true) :
    countConsume (out ++ [r]) t = countConsume out t + if recTx r = t then 1 else 0 := by
  unfold countConsume
  rw [List.countP_append]
  by_cases hx : recTx r = t <;> simp [List.countP_cons, h, hx]

theorem countConsume_snoc_nonconsume (out : List Rec) (r : Rec) (t : Nat)
    (h : isConsume r = false) :
    countConsume (out ++ [r]) t = countConsume out t := by
  unfold countConsume
  rw [List.countP_append]
  simp [List.countP_cons, h]

theorem countDispute_singleton_le (r : Rec) (t : Nat) : countDispute [r] t ≤ 1 := by
  unfold countDispute
  simp only [List.countP_cons, List.countP_nil, Nat.zero_add]
  split <;> omega

theorem balancedCounts_full (out : List Rec) (hb : BalancedCounts out) (t : Nat) :
    countConsume out t ≤ countDispute out t := by
  have h := hb out.length t
  rwa [List.take_length] at h

theorem countDispute_take_le (out : List Rec) (m t : Nat) :
    countDispute (out.take m) t ≤ countDispute out t := by
  conv_rhs => rw [← List.take_append_drop m out]
  rw [countDispute_append]
  omega

end C1CountLemmas

section C1InvariantLemmas

theorem balancedCounts_snoc (out : List Rec) (r : Rec) (hb : BalancedCounts out)
    (h : isConsume r = true → countConsume out (recTx r) < countDispute out (recTx r)) :
    BalancedCounts (out ++ [r]) := by
  intro m t
  rcases le_or_lt m out.length with hm | hm
  · rw [List.take_append_of_le_length hm]
    exact hb m t
  · have hall : (out ++ [r]).take m = out ++ [r] :=
      List.take_of_length_le (by rw [List.length_append]; simp; omega)
    rw [hall]
    by_cases hc : isConsume r = true
    · by_cases ht : recTx r = t
      · subst ht
        rw [countConsume_snoc_consume out r _ hc, if_pos rfl,
          countDispute_snoc_nondispute out r _ (consume_not_dispute r hc)]
        have := h hc
        omega
      · rw [countConsume_snoc_consume out r t hc, if_neg ht,
          countDispute_snoc_nondispute out r t (consume_not_dispute r hc)]
        have := balancedCounts_full out hb t
        omega
    · have hc' : isConsume r = false := by
        revert hc
        cases isConsume r
        · intro _; rfl
        · intro hcc; exact absurd rfl hcc
      rw [countConsume_snoc_nonconsume out r t hc']
      have h1 := balancedCounts_full out hb t
      have h2 : countDispute out t ≤ countDispute (out ++ [r]) t := by
        rw [countDispute_append]
        omega
      omega

theorem disputeOnce_snoc (out : List Rec) (r : Rec) (h1 : DisputeOnce out)
    (h : isDispute r = true → countDispute out (recTx r) = 0) :
    DisputeOnce (out ++ [r]) := by
  intro t
  by_cases hd : isDispute r = true
  · by_cases ht : recTx r = t
    · subst ht
      have h0 := h hd
      rw [countDispute_append]
      have := countDispute_singleton_le r (recTx r)
      omega
    · rw [countDispute_append]
      have hsing : countDispute [r] t = 0 := by
        unfold countDispute
        simp [List.countP_cons, ht]
      have := h1 t
      omega
  · have hd' : isDispute r = false := by
      revert hd
      cases isDispute r
      · intro _; rfl
      · intro hdd; exact absurd rfl hdd
    rw [countDispute_snoc_nondispute out r t hd']
    exact h1 t

theorem getD_not_mem_eraseIdx (pool : List Nat) (i : Nat) (hi : i < pool.length)
    (hnd : pool.Nodup) : pool.getD i 0 ∉ pool.eraseIdx i := by
  intro hmem
  rw [List.mem_eraseIdx_iff_getElem] at hmem
  obtain ⟨j, hj, hne, hEq⟩ := hmem
  rw [List.getD_eq_getElem pool 0 hi] at hEq
  exact hne ((hnd.getElem_inj_iff).mp hEq)

theorem poolInv_snoc_neutral (out : List Rec) (pool : List Nat) (r : Rec)
    (h : PoolInv out pool) (h1 : isDispute r = false) (h2 : isConsume r = false) :
    PoolInv (out ++ [r]) pool := by
  refine ⟨h.1, fun t ht => ?_⟩
  rw [countDispute_snoc_nondispute out r t h1, countConsume_snoc_nonconsume out r t h2]
  exact h.2 t ht

theorem poolInv_snoc_dispute (out : List Rec) (pool : List Nat) (c tx : Nat)
    (h : PoolInv out pool) (hb : BalancedCounts out)
    (hfresh : countDispute out tx = 0) (hnm : tx ∉ pool) :
    PoolInv (out ++ [Rec.dispute c tx]) (pool ++ [tx]) := by
  have hcons0 : countConsume out tx = 0 := by
    have := balancedCounts_full out hb tx
    omega
  constructor
  · rw [List.nodup_append]
    exact ⟨h.1, List.nodup_singleton tx, by simpa using hnm⟩
  · intro t ht
    rcases List.mem_append.mp ht with hp | hp
    · have hne : tx ≠ t := fun hEq => hnm (hEq ▸ hp)
      rw [countDispute_snoc_dispute out c tx t, if_neg hne,
        countConsume_snoc_nonconsume out (Rec.dispute c tx) t rfl]
      exact ⟨by rw [Nat.add_zero]; exact (h.2 t hp).1, (h.2 t hp).2⟩
    · rw [List.mem_singleton] at hp
      subst hp
      rw [countDispute_snoc_dispute out c t t, if_pos rfl,
        countConsume_snoc_nonconsume out (Rec.dispute c t) t rfl]
      exact ⟨by omega, hcons0⟩

theorem poolInv_snoc_consume (out : List Rec) (pool : List Nat) (r : Rec) (i : Nat)
    (h : PoolInv out pool) (hi : i < pool.length)
    (hcons : isConsume r = true) (htx : recTx r = pool.getD i 0) :
    PoolInv (out ++ [r]) (pool.eraseIdx i) := by
  constructor
  · exact (List.eraseIdx_sublist pool i).nodup h.1
  · intro t ht
    have htp : t ∈ pool := List.mem_of_mem_eraseIdx ht
    have hne : recTx r ≠ t := by
      rw [htx]
      intro hEq
      exact getD_not_mem_eraseIdx pool i hi h.1 (hEq ▸ ht)
    rw [countDispute_snoc_nondispute out r t (consume_not_dispute r hcons),
      countConsume_snoc_consume out r t hcons, if_neg hne]
    exact ⟨(h.2 t htp).1, by rw [Nat.add_zero]; exact (h.2 t htp).2⟩

end C1InvariantLemmas

section C1PhaseLemmas

theorem genInv_snoc_neutral (out : List Rec) (pool : List Nat) (tx : Nat) (r : Rec)
    (h : GenInv out pool tx) (h1 : isDispute r = false) (h2 : isConsume r = false) :
    GenInv (out ++ [r]) pool tx := by
  obtain ⟨hD, hB, hP, hF⟩ := h
  refine ⟨?_, ?_, poolInv_snoc_neutral out pool r hP h1 h2, ?_⟩
  · exact disputeOnce_snoc out r hD (fun hd => by rw [h1] at hd; cases hd)
  · exact balancedCounts_snoc out r hB (fun hc => by rw [h2] at hc; cases hc)
  · intro t ht
    rw [countDispute_snoc_nondispute out r t h1]
    exact hF t ht

theorem genInv_dispute_phase (out : List Rec) (pool : List Nat) (tx c : Nat) (d : Draws)
    (h : GenInv out pool tx) :
    GenInv (out ++ (disputePart d c tx pool).1) (disputePart d c tx pool).2 (tx + 1) := by
  obtain ⟨hD, hB, hP, hF⟩ := h
  rcases disputePart_shape d c tx pool with hs | hs <;> simp only [hs]
  · have hfresh := hF tx (Nat.le_refl tx)
    refine ⟨?_, ?_, ?_, ?_⟩
    · exact disputeOnce_snoc out _ hD (fun _ => hfresh.1)
    · exact balancedCounts_snoc out _ hB (fun hc => by
        rw [show isConsume (Rec.dispute c tx) = false from rfl] at hc; cases hc)
    · exact poolInv_snoc_dispute out pool c tx hP hB hfresh.1 hfresh.2
    · intro t ht
      have hf := hF t (by omega)
      constructor
      · rw [countDispute_snoc_dispute out c tx t, if_neg (by omega), hf.1]
      · intro hmem
        rcases List.mem_append.mp hmem with hp | hp
        · exact hf.2 hp
        · rw [List.mem_singleton] at hp
          omega
  · rw [List.append_nil]
    exact ⟨hD, hB, hP, fun t ht => hF t (by omega)⟩

theorem genInv_pop_phase (out : List Rec) (pool : List Nat) (τ c : Nat)
    (recs : List Rec) (pool' : List Nat) (mk : Nat → Nat → Rec)
    (hmkC : ∀ a b, isConsume (mk a b) = true)
    (hmkT : ∀ a b, recTx (mk a b) = b)
    (hcase : (∃ i, i < pool.length ∧ recs = [mk c (pool.getD i 0)] ∧
        pool' = pool.eraseIdx i) ∨ (recs = [] ∧ pool' = pool))
    (h : GenInv out pool τ) : GenInv (out ++ recs) pool' τ := by
  obtain ⟨hD, hB, hP, hF⟩ := h
  rcases hcase with ⟨i, hi, hrecs, hpool⟩ | ⟨hrecs, hpool⟩
  · subst hrecs
    subst hpool
    have hmem : pool.getD i 0 ∈ pool := by
      rw [List.getD_eq_getElem pool 0 hi]
      exact List.getElem_mem hi
    have hcounts := hP.2 _ hmem
    have hnd : isDispute (mk c (pool.getD i 0)) = false :=
      consume_not_dispute _ (hmkC c _)
    refine ⟨?_, ?_, ?_, ?_⟩
    · exact disputeOnce_snoc out _ hD (fun hdd => by rw [hnd] at hdd; cases hdd)
    · refine balancedCounts_snoc out _ hB (fun _ => ?_)
      rw [hmkT c _]
      omega
    · exact poolInv_snoc_consume out pool _ i hP hi (hmkC c _) (hmkT c _)
    · intro t ht
      have hf := hF t ht
      refine ⟨?_, fun hm => hf.2 (List.mem_of_mem_eraseIdx hm)⟩
      rw [countDispute_snoc_nondispute out _ t hnd]
      exact hf.1
  · subst hrecs
    subst hpool
    rw [List.append_nil]
    exact ⟨hD, hB, hP, hF⟩

theorem resolvePart_case (d : Draws) (c : Nat) (pool : List Nat) :
    (∃ i, i < pool.length ∧ (resolvePart d c pool).1 = [Rec.resolve c (pool.getD i 0)] ∧
        (resolvePart d c pool).2 = pool.eraseIdx i) ∨
      ((resolvePart d c pool).1 = [] ∧ (resolvePart d c pool).2 = pool) := by
  rcases resolvePart_shape d c pool with ⟨i, hi, hEq⟩ | hEq
  · exact Or.inl ⟨i, hi, congrArg Prod.fst hEq, congrArg Prod.snd hEq⟩
  · exact Or.inr ⟨congrArg Prod.fst hEq, congrArg Prod.snd hEq⟩

theorem chargebackPart_case (d : Draws) (c : Nat) (pool : List Nat) :
    (∃ i, i < pool.length ∧ (chargebackPart d c pool).1 = [Rec.chargeback c (pool.getD i 0)] ∧
        (chargebackPart d c pool).2 = pool.eraseIdx i) ∨
      ((chargebackPart d c pool).1 = [] ∧ (chargebackPart d c pool).2 = pool) := by
  rcases chargebackPart_shape d c pool with ⟨i, hi, hEq⟩ | hEq
  · exact Or.inl ⟨i, hi, congrArg Prod.fst hEq, congrArg Prod.snd hEq⟩
  · exact Or.inr ⟨congrArg Prod.fst hEq, congrArg Prod.snd hEq⟩

theorem genInv_step (tx : Nat) (s : GenState) (d : Draws) (out : List Rec)
    (h : GenInv out s.disputed_tx_ids tx) :
    GenInv (out ++ (step tx s d).2) (step tx s d).1.disputed_tx_ids (tx + 1) := by
  have h0 : GenInv (out ++ [baseRec d (clientUpd s d).1 tx]) s.disputed_tx_ids tx :=
    genInv_snoc_neutral out s.disputed_tx_ids tx _ h
      (isDispute_baseRec d _ tx) (isConsume_baseRec d _ tx)
  have h1 := genInv_dispute_phase (out ++ [baseRec d (clientUpd s d).1 tx])
    s.disputed_tx_ids tx (clientUpd s d).1 d h0
  have h2 := genInv_pop_phase
    ((out ++ [baseRec d (clientUpd s d).1 tx]) ++
      (disputePart d (clientUpd s d).1 tx s.disputed_tx_ids).1)
    (disputePart d (clientUpd s d).1 tx s.disputed_tx_ids).2 (tx + 1) (clientUpd s d).1
    (resolvePart d (clientUpd s d).1 (disputePart d (clientUpd s d).1 tx s.disputed_tx_ids).2).1
    (resolvePart d (clientUpd s d).1 (disputePart d (clientUpd s d).1 tx s.disputed_tx_ids).2).2
    Rec.resolve (fun _ _ => rfl) (fun _ _ => rfl)
    (resolvePart_case d (clientUpd s d).1 (disputePart d (clientUpd s d).1 tx s.disputed_tx_ids).2)
    h1
  have h3 := genInv_pop_phase
    (((out ++ [baseRec d (clientUpd s d).1 tx]) ++
        (disputePart d (clientUpd s d).1 tx s.disputed_tx_ids).1) ++
      (resolvePart d (clientUpd s d).1 (disputePart d (clientUpd s d).1 tx s.disputed_tx_ids).2).1)
    (resolvePart d (clientUpd s d).1 (disputePart d (clientUpd s d).1 tx s.disputed_tx_ids).2).2
    (tx + 1) (clientUpd s d).1
    (chargebackPart d (clientUpd s d).1
      (resolvePart d (clientUpd s d).1
        (disputePart d (clientUpd s d).1 tx s.disputed_tx_ids).2).2).1
    (chargebackPart d (clientUpd s d).1
      (resolvePart d (clientUpd s d).1
        (disputePart d (clientUpd s d).1 tx s.disputed_tx_ids).2).2).2
    Rec.chargeback (fun _ _ => rfl) (fun _ _ => rfl)
    (chargebackPart_case d (clientUpd s d).1
      (resolvePart d (clientUpd s d).1 (disputePart d (clientUpd s d).1 tx s.disputed_tx_ids).2).2)
    h2
  have e1 : out ++ (step tx s d).2 =
      (((out ++ [baseRec d (clientUpd s d).1 tx]) ++
          (disputePart d (clientUpd s d).1 tx s.disputed_tx_ids).1) ++
        (resolvePart d (clientUpd s d).1
          (disputePart d (clientUpd s d).1 tx s.disputed_tx_ids).2).1) ++
      (chargebackPart d (clientUpd s d).1
        (resolvePart d (clientUpd s d).1
          (disputePart d (clientUpd s d).1 tx s.disputed_tx_ids).2).2).1 := by
    rw [step_expand, List.append_cons]
    simp only [← List.append_assoc]
  rw [e1, step_pool_eq]
  exact h3

theorem runSteps_genInv (k : Nat) :
    ∀ (tx : Nat) (s : GenState) (ds : List Draws) (out : List Rec),
      GenInv out s.disputed_tx_ids tx →
      GenInv (out ++ (runSteps k tx s ds).2) (runSteps k tx s ds).1.disputed_tx_ids (tx + k) := by
  induction k with
  | zero =>
    intro tx s ds out h
    show GenInv (out ++ []) s.disputed_tx_ids (tx + 0)
    rw [List.append_nil]
    exact h
  | succ k ih =>
    intro tx s ds out h
    have h1 := genInv_step tx s (ds.headD defaultDraw) out h
    have h2 := ih (tx + 1) (step tx s (ds.headD defaultDraw)).1 ds.tail
      (out ++ (step tx s (ds.headD defaultDraw)).2) h1
    show GenInv (out ++ ((step tx s (ds.headD defaultDraw)).2 ++
        (runSteps k (tx + 1) (step tx s (ds.headD defaultDraw)).1 ds.tail).2))
      (runSteps k (tx + 1) (step tx s (ds.headD defaultDraw)).1 ds.tail).1.disputed_tx_ids
      (tx + (k + 1))
    rw [← List.append_assoc, show tx + (k + 1) = (tx + 1) + k from by omega]
    exact h2

theorem generate_genInv (n : Nat) (ds : List Draws) :
    GenInv (generate n ds) (stateAfter n ds).disputed_tx_ids n := by
  have h0 : GenInv [] initState.disputed_tx_ids 0 := by
    refine ⟨fun t => Nat.zero_le 1, fun m t => by rw [List.take_nil]; exact Nat.le_refl 0,
      ⟨List.nodup_nil, fun t ht => absurd ht (List.not_mem_nil t)⟩,
      fun t ht => ⟨rfl, List.not_mem_nil t⟩⟩
  have h := runSteps_genInv n 0 initState ds [] h0
  rw [List.nil_append, Nat.zero_add] at h
  exact h

end C1PhaseLemmas

section C1Bridge

theorem countConsume_pos_at (l : List Rec) (i : Nat) (hi : i < l.length)
    (hc : isConsume (l.get ⟨i, hi⟩) = true) :
    0 < countConsume (l.take (i + 1)) (recTx (l.get ⟨i, hi⟩)) := by
  have hlt : i < (l.take (i + 1)).length := by
    rw [List.length_take]
    omega
  have hEq : (l.take (i + 1)).get ⟨i, hlt⟩ = l.get ⟨i, hi⟩ := by
    rw [List.get_eq_getElem, List.get_eq_getElem]
    exact @List.getElem_take _ l (i + 1) i hlt
  unfold countConsume
  rw [List.countP_pos_iff]
  refine ⟨l.get ⟨i, hi⟩, ?_, by rw [List.get_eq_getElem] at hc; simp [hc]⟩
  rw [← hEq]
  exact List.get_mem _ _ _

theorem positional_integrity (l : List Rec) (hD : DisputeOnce l) (hB : BalancedCounts l)
    (i : Nat) (hi : i < l.length) (hc : isConsume (l.get ⟨i, hi⟩) = true) :
    (∃ j, ∃ hj : j < l.length, j < i ∧ isDispute (l.get ⟨j, hj⟩) = true ∧
        recTx (l.get ⟨j, hj⟩) = recTx (l.get ⟨i, hi⟩)) ∧
    (∀ k, ∀ hk : k < l.length, k < i → isConsume (l.get ⟨k, hk⟩) = true →
        recTx (l.get ⟨k, hk⟩) ≠ recTx (l.get ⟨i, hi⟩)) := by
  constructor
  · have hpos := countConsume_pos_at l i hi hc
    have hDpos : 0 < countDispute (l.take (i + 1)) (recTx (l.get ⟨i, hi⟩)) :=
      lt_of_lt_of_le hpos (hB (i + 1) (recTx (l.get ⟨i, hi⟩)))
    unfold countDispute at hDpos
    rw [List.countP_pos_iff] at hDpos
    obtain ⟨a, ha, hpa⟩ := hDpos
    obtain ⟨j, hj, hEq⟩ := List.mem_iff_getElem.mp ha
    have hjlen : j < l.length := by
      have h := hj
      rw [List.length_take] at h
      omega
    have hjlt : j < i + 1 := by
      have h := hj
      rw [List.length_take] at h
      omega
    have hgetEq : l.get ⟨j, hjlen⟩ = a := by
      rw [List.get_eq_getElem]
      exact ((@List.getElem_take _ l (i + 1) j hj).symm).trans hEq
    rw [Bool.and_eq_true, beq_iff_eq] at hpa
    have hjne : j ≠ i := by
      intro hEq2
      subst hEq2
      have hd : isDispute (l.get ⟨j, hjlen⟩) = true := by
        rw [hgetEq]
        exact hpa.1
      have h2 : isConsume (l.get ⟨j, hi⟩) = false := dispute_not_consume _ hd
      rw [h2] at hc
      cases hc
    refine ⟨j, hjlen, by omega, by rw [hgetEq]; exact hpa.1, by rw [hgetEq]; exact hpa.2⟩
  · intro k hk hki hck hEqt
    obtain ⟨m, rfl⟩ : ∃ m, i = k + 1 + m := ⟨i - k - 1, by omega⟩
    have h1 : 0 < countConsume (l.take (k + 1)) (recTx (l.get ⟨k + 1 + m, hi⟩)) := by
      have h := countConsume_pos_at l k hk hck
      rw [hEqt] at h
      exact h
    have hlt : m < ((l.take (k + 1 + m + 1)).drop (k + 1)).length := by
      rw [List.length_drop, List.length_take]
      omega
    have hel : ((l.take (k + 1 + m + 1)).drop (k + 1)).get ⟨m, hlt⟩ =
        l.get ⟨k + 1 + m, hi⟩ := by
      rw [List.get_eq_getElem, List.get_eq_getElem, List.getElem_drop, List.getElem_take]
    have h2 : 0 < countConsume ((l.take (k + 1 + m + 1)).drop (k + 1))
        (recTx (l.get ⟨k + 1 + m, hi⟩)) := by
      unfold countConsume
      rw [List.countP_pos_iff]
      refine ⟨l.get ⟨k + 1 + m, hi⟩, ?_, by rw [List.get_eq_getElem] at hc; simp [hc]⟩
      rw [← hel]
      exact List.get_mem _ _ _
    have hsplit : l.take (k + 1 + m + 1) =
        (l.take (k + 1)) ++ ((l.take (k + 1 + m + 1)).drop (k + 1)) := by
      conv_lhs => rw [← List.take_append_drop (k + 1) (l.take (k + 1 + m + 1))]
      rw [List.take_take, Nat.min_eq_left (by omega)]
    have hge2 : 2 ≤ countConsume (l.take (k + 1 + m + 1)) (recTx (l.get ⟨k + 1 + m, hi⟩)) := by
      rw [hsplit, countConsume_append]
      omega
    have hle : countDispute (l.take (k + 1 + m + 1)) (recTx (l.get ⟨k + 1 + m, hi⟩)) ≤ 1 :=
      le_trans (countDispute_take_le l (k + 1 + m + 1) (recTx (l.get ⟨k + 1 + m, hi⟩)))
        (hD (recTx (l.get ⟨k + 1 + m, hi⟩)))
    have hbal := hB (k + 1 + m + 1) (recTx (l.get ⟨k + 1 + m, hi⟩))
    omega

end C1Bridge

/-- C1: referential integrity of resolves and chargebacks.  In every
generated output, every resolve or chargeback record is preceded by a
dispute record with the same transaction id, and no earlier resolve or
chargeback in the output has already consumed that transaction id (each
pooled dispute is consumed at most once, atomically with its emission). -/
theorem resolve_chargeback_referential_integrity (n : Nat) (ds : List Draws)
    (i : Nat) (hi : i < (generate n ds).length)
    (hc : isConsume ((generate n ds).get ⟨i, hi⟩) = true) :
    (∃ j, ∃ hj : j < (generate n ds).length, j < i ∧
        isDispute ((generate n ds).get ⟨j, hj⟩) = true ∧
        recTx ((generate n ds).get ⟨j, hj⟩) = recTx ((generate n ds).get ⟨i, hi⟩)) ∧
    (∀ k, ∀ hk : k < (generate n ds).length, k < i →
        isConsume ((generate n ds).get ⟨k, hk⟩) = true →
        recTx ((generate n ds).get ⟨k, hk⟩) ≠ recTx ((generate n ds).get ⟨i, hi⟩)) := by
  have hinv := generate_genInv n ds
  exact positional_integrity (generate n ds) hinv.1 hinv.2.1 i hi hc

/-- C1 witness: in the one-step run that disputes and then resolves
transaction 0, the resolve at position 2 is covered by the dispute at
position 1 and no earlier consume exists. -/
theorem resolve_chargeback_referential_integrity_witness :
    (∃ j, ∃ hj : j < (generate 1 [dRes]).length, j < 2 ∧
        isDispute ((generate 1 [dRes]).get ⟨j, hj⟩) = true ∧
        recTx ((generate 1 [dRes]).get ⟨j, hj⟩) =
          recTx ((generate 1 [dRes]).get ⟨2, by decide⟩)) ∧
    (∀ k, ∀ hk : k < (generate 1 [dRes]).length, k < 2 →
        isConsume ((generate 1 [dRes]).get ⟨k, hk⟩) = true →
        recTx ((generate 1 [dRes]).get ⟨k, hk⟩) ≠
          recTx ((generate 1 [dRes]).get ⟨2, by decide⟩)) :=
  resolve_chargeback_referential_integrity 1 [dRes] 2 (by decide) (by decide)
